import Mathlib

/-!
Verification of the TonnetzGrid engine (src/music.py) against its
natural-language specification.  The Python class TonnetzGrid is shallowly
embedded below: the lattice construction, hexagon hit-testing, the
toggle/drag interaction state machine, the playback registry, and the tone
synthesizer each become explicit Lean definitions, and the spec's claims are
settled as theorems about these definitions.
-/

namespace Tonnetz

/-- Truncation toward zero, the semantics of Python's int() applied to a
nonintegral number (and of numpy's astype to an integer dtype). -/
def truncInt {α : Type} [LinearOrderedField α] [FloorRing α] (x : α) : ℤ :=
  if 0 ≤ x then ⌊x⌋ else ⌈x⌉

/-- Python's binary % on field values: x % m = x - m * floor (x / m).
For m > 0 the result lies in [0, m). -/
def pyMod {α : Type} [LinearOrderedField α] [FloorRing α] (x m : α) : α :=
  x - m * (⌊x / m⌋ : ℤ)

/-- Python's range(n) as a list of integers (empty when n ≤ 0). -/
def pyRange (n : ℤ) : List ℤ :=
  (List.range n.toNat).map (fun k => (k : ℤ))

/-- Pitch index of an even-column cell: (7 * col_offset + 4 * row_offset) % 12
(music.py line 229).  Python's % on ints with a positive modulus agrees with
Int.emod. -/
def even_col_pitch (row_offset col_offset : ℤ) : ℤ :=
  (7 * col_offset + 4 * row_offset) % 12

/-- Pitch index of an odd-column cell (music.py lines 231-232): the float
expression (7 * col_offset + 4 * (row_offset - 0.5)) % 12 is computed first
(Python float modulo), then truncated by int(), then reduced % 12 again.
The float arithmetic is exact here (all intermediates are small integers),
so it is embedded with exact rational arithmetic. -/
def odd_col_pitch (row_offset col_offset : ℤ) : ℤ :=
  truncInt (pyMod (7 * (col_offset : ℚ) + 4 * ((row_offset : ℚ) - 1/2)) 12) % 12

/-- Pitch of the cell at (row, col) relative to the origin (start_row,
start_col), branching on column parity as create_tonnetz_grid does. -/
def cell_pitch (start_row start_col row col : ℤ) : ℤ :=
  if col % 2 = 0 then even_col_pitch (row - start_row) (col - start_col)
  else odd_col_pitch (row - start_row) (col - start_col)

/-- The dict built by TonnetzGrid.create_tonnetz_grid (music.py lines
211-234), as an association list in insertion order: the origin cell
(rows//2, cols//2) is assigned pitch class 0 first, then every other cell of
the rows x cols range is assigned by cell_pitch.  The method performs no
validation of rows or cols; for nonpositive sizes the loops are empty but
the origin entry is still written. -/
def create_tonnetz_grid (rows cols : ℤ) : List ((ℤ × ℤ) × ℤ) :=
  let start_row := rows / 2
  let start_col := cols / 2
  ((start_row, start_col), 0) ::
    (pyRange rows).flatMap (fun row =>
      (pyRange cols).filterMap (fun col =>
        if row = start_row ∧ col = start_col then none
        else some ((row, col), cell_pitch start_row start_col row col)))

/-- Names of the 12 pitch classes (music.py line 30); the list is written in
two halves only to keep the source lines short, its value is the single
12-element literal of the code. -/
def pitch_classes : List String :=
  ["C", "C#", "D", "D#", "E", "F"]
    ++ ["F#", "G", "G#", "A", "A#", "B"]

/-- The enharmonic-spelling dictionary (music.py lines 31-34). -/
def enharmonics : List (String × String) :=
  [("C#", "Db"), ("D#", "Eb"), ("F#", "Gb"), ("G#", "Ab"), ("A#", "Bb"),
   ("Db", "C#"), ("Eb", "D#"), ("Gb", "F#"), ("Ab", "G#"), ("Bb", "A#")]

/-- TonnetzGrid.pitch_class_to_index (music.py lines 195-205): tries the name
and, when present, its enharmonic alternative against pitch_classes and
returns the first index found, defaulting to 0. -/
def pitch_class_to_index (note : String) : ℤ :=
  let alternatives : List String :=
    match enharmonics.lookup note with
    | some alt => [note, alt]
    | none => [note]
  match alternatives.find? (fun a => decide (a ∈ pitch_classes)) with
  | some alt => ((pitch_classes.indexOf alt : ℕ) : ℤ)
  | none => 0

/-- The chord_indices list computed by highlight_chord (music.py lines
407-412): root, third (major or minor) and fifth, each reduced mod 12. -/
def chord_indices (root : String) (quality : String) : List ℤ :=
  let root_index := pitch_class_to_index root
  if quality = "major" then
    [root_index, (root_index + 4) % 12, (root_index + 7) % 12]
  else
    [root_index, (root_index + 3) % 12, (root_index + 7) % 12]

/-- The chord dispatch of on_key (music.py lines 586-596) for a single-key
event: space yields no chord (it clears instead), an upper-case letter of
CDEFGAB requests a major chord on that letter, a lower-case one requests a
minor chord on the upper-cased letter; every other key does nothing. -/
def on_key_chord (key : Char) : Option (String × String) :=
  if key = ' ' then none
  else if key.toUpper ∈ ['C', 'D', 'E', 'F', 'G', 'A', 'B'] then
    if key.isUpper then some (String.mk [key], "major")
    else some (String.mk [key.toUpper], "minor")
  else none

/-- External audio environment of the embedded interaction machine: whether
pygame initialised (AUDIO_AVAILABLE), which notes got a pregenerated sound
(note_sounds keys), the channel pygame.mixer.find_channel would currently
hand out (None when the pool is exhausted), and the note name each lattice
cell carries (hexagons[(row, col)]["note"]). -/
structure AudioCfg where
  available : Bool
  sounds : List String
  find_channel : Option ℕ
  note_of : (ℤ × ℤ) → String

/-- Mutable state of a TonnetzGrid instance, restricted to the fields the
interaction logic reads and writes.  playing embeds the playing_notes dict
(note name to channel) as an association list in insertion order.
toggle_log is an observation trace: it records the cells on which
toggle_note was invoked, in order, and is written by no other operation. -/
structure TState where
  is_dragging : Bool
  drag_toggle_state : Bool
  already_toggled : Finset (ℤ × ℤ)
  active_notes : Finset (ℤ × ℤ)
  chord_highlights : Finset (ℤ × ℤ)
  hex_active : (ℤ × ℤ) → Bool
  playing : List (String × ℕ)
  toggle_log : List (ℤ × ℤ)

/-- Keys of the playback registry. -/
def registry_keys (playing : List (String × ℕ)) : List String :=
  playing.map Prod.fst

/-- start_continuous_note (music.py lines 350-365): a no-op when audio is
unavailable or the note has no pregenerated sound; otherwise, when the note
is not yet registered and a channel is available, the channel starts looping
the sound and is registered for the note. -/
def start_continuous_note (cfg : AudioCfg) (playing : List (String × ℕ))
    (note : String) : List (String × ℕ) :=
  if ¬ (cfg.available = true) ∨ note ∉ cfg.sounds then playing
  else if note ∈ registry_keys playing then playing
  else
    match cfg.find_channel with
    | some ch => (note, ch) :: playing
    | none => playing

/-- stop_continuous_note (music.py lines 367-379): when audio is available
and the note is registered, its channel is stopped and the registration
removed; otherwise a no-op. -/
def stop_continuous_note (cfg : AudioCfg) (playing : List (String × ℕ))
    (note : String) : List (String × ℕ) :=
  if ¬ (cfg.available = true) then playing
  else if note ∈ registry_keys playing then
    playing.filter (fun p => decide (p.1 ≠ note))
  else playing

/-- The registry effect of the stop-everything loop inside clear_all
(music.py lines 509-519): with audio available every entry is stopped and
deleted (the embedding assumes the backend raises no exception); without
audio the method returned before reaching the loop. -/
def stop_all_playing (cfg : AudioCfg) (playing : List (String × ℕ)) :
    List (String × ℕ) :=
  if cfg.available = true then [] else playing

/-- toggle_note (music.py lines 381-401): flips the cell's membership in
active_notes, records the new state in the cell's active flag, and, when
play_sound holds, starts or stops the continuous note accordingly. -/
def toggle_note (cfg : AudioCfg) (s : TState) (c : ℤ × ℤ)
    (play_sound : Bool) : TState :=
  let note := cfg.note_of c
  if c ∈ s.active_notes then
    { s with
      active_notes := s.active_notes.erase c,
      hex_active := fun x => if x = c then false else s.hex_active x,
      playing := if play_sound then stop_continuous_note cfg s.playing note
                 else s.playing,
      toggle_log := s.toggle_log ++ [c] }
  else
    { s with
      active_notes := insert c s.active_notes,
      hex_active := fun x => if x = c then true else s.hex_active x,
      playing := if play_sound then start_continuous_note cfg s.playing note
                 else s.playing,
      toggle_log := s.toggle_log ++ [c] }

/-- on_press (music.py lines 553-566), parametrised by the hit-test result
hit = find_hex_at_point(event.xdata, event.ydata): on a hit, start a drag
gesture, reset the visited set to the hit cell, record the toggle direction
from the cell's current state, and toggle it. -/
def on_press (cfg : AudioCfg) (s : TState) (hit : Option (ℤ × ℤ)) : TState :=
  match hit with
  | none => s
  | some c =>
    let s1 := { s with
      is_dragging := true,
      already_toggled := {c},
      drag_toggle_state := decide (c ∉ s.active_notes) }
    toggle_note cfg s1 c true

/-- on_motion (music.py lines 568-579), parametrised by the hit-test result:
ignored unless a drag is in progress; a hit on a cell already visited in
this gesture is a no-op; an unvisited hit is marked visited and toggled only
when its current state disagrees with the gesture's toggle direction. -/
def on_motion (cfg : AudioCfg) (s : TState) (hit : Option (ℤ × ℤ)) : TState :=
  if ¬ (s.is_dragging = true) then s
  else
    match hit with
    | none => s
    | some c =>
      if c ∈ s.already_toggled then s
      else
        let s1 := { s with already_toggled := insert c s.already_toggled }
        if ¬ (decide (c ∈ s.active_notes) = s.drag_toggle_state) then
          toggle_note cfg s1 c true
        else s1

/-- on_release (music.py lines 581-584): end the gesture, clear the visited
set. -/
def on_release (s : TState) : TState :=
  { s with is_dragging := false, already_toggled := ∅ }

/-- Folding a sequence of motion events into the state. -/
def run_motions (cfg : AudioCfg) (s : TState)
    (hits : List (Option (ℤ × ℤ))) : TState :=
  hits.foldl (fun t hit => on_motion cfg t hit) s

/-- clear_chord_highlights (music.py lines 487-499): restores the rendering
of highlighted cells (a visual effect outside this embedding), removes the
triangle markers, and empties chord_highlights. -/
def clear_chord_highlights (s : TState) : TState :=
  { s with chord_highlights := ∅ }

/-- clear_all (music.py lines 501-530): clears the chord highlights, then
RETURNS EARLY when audio is unavailable; only with audio available does it
go on to stop every playing note, reset the active flag of every active
cell, and clear active_notes. -/
def clear_all (cfg : AudioCfg) (s : TState) : TState :=
  let s1 := clear_chord_highlights s
  if ¬ (cfg.available = true) then s1
  else
    { s1 with
      playing := stop_all_playing cfg s1.playing,
      hex_active := fun x => if x ∈ s1.active_notes then false
                             else s1.hex_active x,
      active_notes := ∅ }

/-- point_in_hex (music.py lines 532-544) over exact reals: the point is
rejected when its vertical distance from the centre exceeds size, and
otherwise accepted exactly when its horizontal distance is at most
size * sqrt 3 * (1 - dy / (2 * size)). -/
def point_in_hex (point hex_center : ℝ × ℝ) (size : ℝ) : Prop :=
  let dx := |point.1 - hex_center.1|
  let dy := |point.2 - hex_center.2|
  dy ≤ size ∧ dx ≤ size * Real.sqrt 3 * (1 - dy / (2 * size))

/-- The harmonic table of generate_long_tone (music.py line 328). -/
noncomputable def harmonics : List (ℝ × ℕ) :=
  [(1.0, 1), (0.5, 2), (0.3, 3), (0.2, 4)]

/-- One normalised sample of the additive synthesis loop (music.py lines
330-334): the four harmonic contributions are summed and divided by the
number of harmonics. -/
noncomputable def tone_sample (frequency sample_rate : ℝ) (i : ℕ) : ℝ :=
  (harmonics.foldl
    (fun acc h =>
      acc + h.1 * Real.sin (2 * Real.pi * frequency * (h.2 : ℝ) * (i : ℝ) / sample_rate))
    0) / (harmonics.length : ℝ)

/-- numpy's clip: values below lo become lo, values above hi become hi. -/
def clip (lo hi x : ℝ) : ℝ := max lo (min x hi)

/-- generate_long_tone (music.py lines 320-340): None when audio is
unavailable; otherwise int(duration * sample_rate) stereo frames, each made
of the same sample in both channels, scaled by 15000, clipped to
[-32767, 32767] and truncated to a 16-bit integer (the clip keeps every
value inside the int16 range, so astype cannot wrap). -/
noncomputable def generate_long_tone (audio_available : Bool) (frequency : ℝ)
    (duration : ℝ) (sample_rate : ℝ) : Option (List (ℤ × ℤ)) :=
  if ¬ (audio_available = true) then none
  else
    let frames := (truncInt (duration * sample_rate)).toNat
    some ((List.range frames).map (fun i =>
      let q := truncInt (clip (-32767) 32767 (tone_sample frequency sample_rate i * 15000))
      (q, q)))

/-- Audio environment used by the concrete witness instances: audio present,
a pregenerated sound for C, one free channel. -/
def cfgW : AudioCfg :=
  { available := true, sounds := ["C"], find_channel := some 0,
    note_of := fun _ => "C" }

/-- Audio environment with pygame unavailable (the except branch at
music.py lines 10-16). -/
def cfgNoAudio : AudioCfg :=
  { available := false, sounds := [], find_channel := none,
    note_of := fun _ => "C" }

/-- The interaction state right after startup: nothing dragged, nothing
active, registry empty. -/
def s0 : TState :=
  { is_dragging := false, drag_toggle_state := false, already_toggled := ∅,
    active_notes := ∅, chord_highlights := ∅, hex_active := fun _ => false,
    playing := [], toggle_log := [] }

/-- A mid-gesture state used by the witness instances: dragging, the cell
(0, 0) already visited. -/
def sW : TState :=
  { s0 with is_dragging := true, drag_toggle_state := true,
            already_toggled := {((0 : ℤ), (0 : ℤ))} }

/-- The odd-column fractional intermediate is exactly an integer. -/
theorem frac_exact (ro co : ℤ) :
    7 * (co : ℚ) + 4 * ((ro : ℚ) - 1/2) = ((7 * co + 4 * ro - 2 : ℤ) : ℚ) := by
  push_cast
  ring

/-- Python's float modulo agrees with integer emod on integral values. -/
theorem pyMod_intCast (n : ℤ) : pyMod ((n : ℚ)) 12 = ((n % 12 : ℤ) : ℚ) := by
  unfold pyMod
  have h12 : (12 : ℚ) = ((12 : ℕ) : ℚ) := by norm_num
  rw [h12, Rat.floor_intCast_div_natCast]
  push_cast [Int.emod_def]
  ring

/-- Truncation toward zero is the identity on integral rationals. -/
theorem truncInt_intCast (n : ℤ) : truncInt ((n : ℚ)) = n := by
  unfold truncInt
  split
  · exact Int.floor_intCast n
  · exact Int.ceil_intCast n

/-- The truncated float modulo of the odd-column expression, before the
final % 12, already equals the integer (7c + 4r - 2) mod 12. -/
theorem trunc_pyMod_eq (ro co : ℤ) :
    truncInt (pyMod (7 * (co : ℚ) + 4 * ((ro : ℚ) - 1/2)) 12)
      = (7 * co + 4 * ro - 2) % 12 := by
  rw [frac_exact, pyMod_intCast, truncInt_intCast]

/-- The odd-column branch computes (7c + 4r - 2) mod 12 in pure integer
arithmetic. -/
theorem odd_col_pitch_eq (ro co : ℤ) :
    odd_col_pitch ro co = (7 * co + 4 * ro - 2) % 12 := by
  unfold odd_col_pitch
  rw [trunc_pyMod_eq]
  exact Int.emod_emod_of_dvd _ dvd_rfl

/-- C10: for every odd-column cell, the fractional intermediate
7 * colOffset + 4 * (rowOffset - 0.5) is exactly the integer
7 * colOffset + 4 * rowOffset - 2, so the odd-column branch (float modulo,
then int truncation, then a second modulo) computes exactly
(7 * colOffset + 4 * rowOffset - 2) mod 12 in pure integer arithmetic; the
truncation never changes the value, and truncating before instead of after
the modulo gives the same result. -/
theorem C10_odd_column_refinement (ro co : ℤ) :
    (7 * (co : ℚ) + 4 * ((ro : ℚ) - 1/2) = ((7 * co + 4 * ro - 2 : ℤ) : ℚ)) ∧
    odd_col_pitch ro co = (7 * co + 4 * ro - 2) % 12 ∧
    ((truncInt (pyMod (7 * (co : ℚ) + 4 * ((ro : ℚ) - 1/2)) 12) : ℤ) : ℚ)
      = pyMod (7 * (co : ℚ) + 4 * ((ro : ℚ) - 1/2)) 12 ∧
    truncInt (7 * (co : ℚ) + 4 * ((ro : ℚ) - 1/2)) % 12 = odd_col_pitch ro co := by
  refine ⟨frac_exact ro co, odd_col_pitch_eq ro co, ?_, ?_⟩
  · rw [trunc_pyMod_eq, frac_exact, pyMod_intCast]
  · rw [frac_exact, truncInt_intCast, odd_col_pitch_eq]

/-- C3: the constructor performs no validation of the lattice dimensions.
At rows = 0, cols = 0 it silently returns a one-entry grid mapping the
phantom origin (0, 0) to pitch class 0 instead of failing: there is no
InvalidLatticeSize (or any other) failure path in the code. -/
theorem C3_no_size_validation :
    create_tonnetz_grid 0 0 = [(((0 : ℤ), (0 : ℤ)), (0 : ℤ))] := by
  rfl

/-- C1: for rows, cols ≥ 1 the built grid contains the origin cell
(rows / 2, cols / 2) with pitch class 0, and every entry of the grid carries
exactly the pitch the claim's formulas prescribe: 0 at the origin,
(7 * colOffset + 4 * rowOffset) mod 12 for even columns, and the int
truncation of the float (7 * colOffset + 4 * (rowOffset - 0.5)) mod 12 for
odd columns. -/
theorem C1_build_pitch_assignment (rows cols : ℤ)
    (hr : 1 ≤ rows) (hc : 1 ≤ cols) :
    ((rows / 2, cols / 2), (0 : ℤ)) ∈ create_tonnetz_grid rows cols ∧
    ∀ rc p, (rc, p) ∈ create_tonnetz_grid rows cols →
      (rc = (rows / 2, cols / 2) → p = 0) ∧
      (rc ≠ (rows / 2, cols / 2) →
        p = if rc.2 % 2 = 0 then
              (7 * (rc.2 - cols / 2) + 4 * (rc.1 - rows / 2)) % 12
            else
              truncInt (pyMod (7 * ((rc.2 - cols / 2 : ℤ) : ℚ)
                + 4 * (((rc.1 - rows / 2 : ℤ) : ℚ) - 1/2)) 12)) := by
  constructor
  · simp only [create_tonnetz_grid]
    exact List.mem_cons_self _ _
  · intro rc p hmem
    simp only [create_tonnetz_grid, List.mem_cons, List.mem_flatMap,
      List.mem_filterMap] at hmem
    rcases hmem with h0 | ⟨row, hrow, col, hcol, hif⟩
    · have h1 : rc = (rows / 2, cols / 2) := congrArg Prod.fst h0
      have h2 : p = 0 := congrArg Prod.snd h0
      constructor
      · intro _
        exact h2
      · intro hne
        exact absurd h1 hne
    · by_cases hcond : row = rows / 2 ∧ col = cols / 2
      · rw [if_pos hcond] at hif
        exact absurd hif (by simp)
      · rw [if_neg hcond, Option.some_inj] at hif
        have hrc : (row, col) = rc := congrArg Prod.fst hif
        have hp : cell_pitch (rows / 2) (cols / 2) row col = p :=
          congrArg Prod.snd hif
        constructor
        · intro heq
          have hb : (row, col) = (rows / 2, cols / 2) := hrc.trans heq
          exact absurd ⟨congrArg Prod.fst hb, congrArg Prod.snd hb⟩ hcond
        · intro _
          subst hp
          subst hrc
          simp only [cell_pitch, even_col_pitch]
          by_cases hpar : col % 2 = 0
          · simp [hpar]
          · simp only [hpar, if_false]
            rw [odd_col_pitch_eq, trunc_pyMod_eq]

/-- Witness for C1 at rows = 1, cols = 1: the origin (0, 0) carries pitch
class 0. -/
theorem C1_witness :
    (((0 : ℤ), (0 : ℤ)), (0 : ℤ)) ∈ create_tonnetz_grid 1 1 := by
  have h := (C1_build_pitch_assignment 1 1 (by norm_num) (by norm_num)).1
  norm_num at h
  exact h

/-- C4: point_in_hex rejects every point whose vertical distance from the
centre exceeds size; for points within that band it accepts exactly when
the horizontal distance is at most size * sqrt 3 * (1 - dy / (2 * size));
and the centre of the hexagon itself is always accepted. -/
theorem C4_point_in_hex_spec (p c : ℝ × ℝ) (s : ℝ) (hs : 0 < s) :
    (s < |p.2 - c.2| → ¬ point_in_hex p c s) ∧
    (|p.2 - c.2| ≤ s →
      (point_in_hex p c s ↔
        |p.1 - c.1| ≤ s * Real.sqrt 3 * (1 - |p.2 - c.2| / (2 * s)))) ∧
    point_in_hex c c s := by
  refine ⟨?_, ?_, ?_, ?_⟩
  · intro hgt hmem
    exact absurd hmem.1 (not_le.mpr hgt)
  · intro hle
    exact ⟨fun hmem => hmem.2, fun hx => ⟨hle, hx⟩⟩
  · simpa using hs.le
  · simp only [sub_self, abs_zero, zero_div, sub_zero, mul_one]
    positivity

/-- Witness for C4: the centre of the unit hexagon at the origin is inside
it. -/
theorem C4_witness : point_in_hex ((0 : ℝ), (0 : ℝ)) ((0 : ℝ), (0 : ℝ)) 1 :=
  (C4_point_in_hex_spec ((0 : ℝ), (0 : ℝ)) ((0 : ℝ), (0 : ℝ)) 1
    (by norm_num)).2.2

/-- numpy clip keeps its result between the two bounds. -/
theorem clip_mem (lo hi x : ℝ) (h : lo ≤ hi) :
    lo ≤ clip lo hi x ∧ clip lo hi x ≤ hi := by
  unfold clip
  exact ⟨le_max_left _ _, max_le h (min_le_right _ _)⟩

/-- Truncation toward zero stays between integer bounds that straddle 0. -/
theorem truncInt_mem (lo hi : ℤ) (x : ℝ) (h0lo : lo ≤ 0) (h0hi : 0 ≤ hi)
    (hlo : (lo : ℝ) ≤ x) (hhi : x ≤ (hi : ℝ)) :
    lo ≤ truncInt x ∧ truncInt x ≤ hi := by
  unfold truncInt
  split
  next hx =>
    refine ⟨le_trans h0lo ?_, ?_⟩
    · exact Int.le_floor.mpr (by exact_mod_cast hx)
    · calc ⌊x⌋ ≤ ⌊(hi : ℝ)⌋ := Int.floor_le_floor hhi
        _ = hi := Int.floor_intCast hi
  next hx =>
    push_neg at hx
    refine ⟨?_, le_trans ?_ h0hi⟩
    · calc lo = ⌈(lo : ℝ)⌉ := (Int.ceil_intCast lo).symm
        _ ≤ ⌈x⌉ := Int.ceil_le_ceil hlo
    · calc ⌈x⌉ ≤ ⌈(0 : ℝ)⌉ := Int.ceil_le_ceil hx.le
        _ = 0 := by norm_num

/-- C9: synthesizing one second at 440 Hz and 22050 Hz sample rate yields a
buffer of exactly 22050 stereo frames whose left and right samples agree,
every sample lying within [-32767, 32767] thanks to the clip applied before
16-bit quantisation. -/
theorem C9_long_tone_buffer :
    ∃ l, generate_long_tone true 440 1 22050 = some l ∧
      l.length = 22050 ∧
      ∀ q ∈ l, q.1 = q.2 ∧ (-32767 : ℤ) ≤ q.1 ∧ q.1 ≤ 32767 := by
  have hframes : truncInt ((1 : ℝ) * 22050) = 22050 := by
    unfold truncInt
    rw [if_pos (by norm_num)]
    have h1 : ((1 : ℝ) * 22050) = ((22050 : ℤ) : ℝ) := by norm_num
    rw [h1, Int.floor_intCast]
  refine ⟨_, rfl, ?_, ?_⟩
  · show ((List.range (truncInt ((1 : ℝ) * 22050)).toNat).map _).length = 22050
    rw [List.length_map, List.length_range, hframes]
    rfl
  · intro q hq
    rw [List.mem_map] at hq
    obtain ⟨i, _, rfl⟩ := hq
    have hc := clip_mem (-32767) 32767 (tone_sample 440 22050 i * 15000)
      (by norm_num)
    have hb := truncInt_mem (-32767) 32767
      (clip (-32767) 32767 (tone_sample 440 22050 i * 15000))
      (by norm_num) (by norm_num)
      (by push_cast; exact hc.1) (by push_cast; exact hc.2)
    exact ⟨rfl, hb.1, hb.2⟩

/-- C8: toggling the same cell twice in a row restores both its active flag
(under the representation invariant that the flag mirrors membership in
active_notes, which holds from creation on) and the ActiveNoteSet. -/
theorem C8_toggle_involution (cfg : AudioCfg) (s : TState) (c : ℤ × ℤ)
    (h : s.hex_active c = decide (c ∈ s.active_notes)) :
    (toggle_note cfg (toggle_note cfg s c true) c true).active_notes
        = s.active_notes ∧
    (toggle_note cfg (toggle_note cfg s c true) c true).hex_active c
        = s.hex_active c := by
  constructor
  · by_cases hc : c ∈ s.active_notes
    · simp [toggle_note, hc, Finset.insert_erase hc]
    · simp [toggle_note, hc, Finset.erase_insert hc]
  · by_cases hc : c ∈ s.active_notes
    · simp [toggle_note, hc, h]
    · simp [toggle_note, hc, h]

/-- Witness for C8: double-toggling (0, 0) from the startup state restores
the empty ActiveNoteSet and the inactive flag. -/
theorem C8_witness :
    (toggle_note cfgW (toggle_note cfgW s0 ((0 : ℤ), (0 : ℤ)) true)
        ((0 : ℤ), (0 : ℤ)) true).active_notes = s0.active_notes ∧
    (toggle_note cfgW (toggle_note cfgW s0 ((0 : ℤ), (0 : ℤ)) true)
        ((0 : ℤ), (0 : ℤ)) true).hex_active ((0 : ℤ), (0 : ℤ))
      = s0.hex_active ((0 : ℤ), (0 : ℤ)) :=
  C8_toggle_involution cfgW s0 ((0 : ℤ), (0 : ℤ)) (by decide)

/-- C2 fails on the code: with the audio subsystem unavailable, clear_all
returns right after clearing the chord highlights, so a previously toggled
cell stays in ActiveNoteSet (the method's own docstring promises to clear
all active notes).  With audio available the same sequence does empty
ActiveNoteSet and the playback registry. -/
theorem C2_clear_all_audio_unavailable_bug :
    (clear_all cfgNoAudio
        (toggle_note cfgNoAudio s0 ((0 : ℤ), (0 : ℤ)) true)).active_notes
      = {((0 : ℤ), (0 : ℤ))} ∧
    (clear_all cfgNoAudio
        (toggle_note cfgNoAudio s0 ((0 : ℤ), (0 : ℤ)) true)).chord_highlights
      = ∅ ∧
    (clear_all cfgW
        (toggle_note cfgW s0 ((0 : ℤ), (0 : ℤ)) true)).active_notes = ∅ ∧
    (clear_all cfgW
        (toggle_note cfgW s0 ((0 : ℤ), (0 : ℤ)) true)).playing = [] := by
  refine ⟨?_, ?_, ?_, ?_⟩ <;> decide

/-- Every outcome of start_continuous_note: either the registry is left
unchanged, or the note was unregistered and exactly one new registration is
prepended. -/
theorem start_cases (cfg : AudioCfg) (playing : List (String × ℕ))
    (note : String) :
    start_continuous_note cfg playing note = playing ∨
    (note ∉ registry_keys playing ∧ ∃ ch,
      start_continuous_note cfg playing note = (note, ch) :: playing) := by
  unfold start_continuous_note
  split_ifs with h1 h2
  · exact Or.inl rfl
  · exact Or.inl rfl
  · cases hch : cfg.find_channel with
    | none => exact Or.inl rfl
    | some ch => exact Or.inr ⟨h2, ch, rfl⟩

/-- Every outcome of stop_continuous_note: unchanged, or the note's entries
filtered out. -/
theorem stop_cases (cfg : AudioCfg) (playing : List (String × ℕ))
    (note : String) :
    stop_continuous_note cfg playing note = playing ∨
    stop_continuous_note cfg playing note
      = playing.filter (fun q => decide (q.1 ≠ note)) := by
  unfold stop_continuous_note
  by_cases h1 : ¬ (cfg.available = true)
  · rw [if_pos h1]
    exact Or.inl rfl
  · rw [if_neg h1]
    by_cases h2 : note ∈ registry_keys playing
    · rw [if_pos h2]
      exact Or.inr rfl
    · rw [if_neg h2]
      exact Or.inl rfl

/-- C7: the playback registry keeps at most one channel per note name, and
every operation preserves this: a start on a registered note keeps the
registry unchanged, a start on an unregistered note inserts at most one
entry, a stop removes the note (and is a no-op when the note is absent),
the clear-all loop empties the registry, and without audio no operation
ever touches it. -/
theorem C7_registry_invariant (cfg : AudioCfg) (playing : List (String × ℕ))
    (note : String) (hnd : (registry_keys playing).Nodup) :
    (registry_keys (start_continuous_note cfg playing note)).Nodup ∧
    (registry_keys (stop_continuous_note cfg playing note)).Nodup ∧
    (registry_keys (stop_all_playing cfg playing)).Nodup ∧
    (note ∈ registry_keys playing →
      start_continuous_note cfg playing note = playing) ∧
    (note ∉ registry_keys playing →
      start_continuous_note cfg playing note = playing ∨
      ∃ ch, start_continuous_note cfg playing note = (note, ch) :: playing) ∧
    (cfg.available = true →
      note ∉ registry_keys (stop_continuous_note cfg playing note)) ∧
    (note ∉ registry_keys playing →
      stop_continuous_note cfg playing note = playing) ∧
    (cfg.available = true → stop_all_playing cfg playing = []) ∧
    (cfg.available = false →
      start_continuous_note cfg playing note = playing ∧
      stop_continuous_note cfg playing note = playing) := by
  have hfilter_sub :
      (registry_keys (playing.filter (fun q => decide (q.1 ≠ note)))).Sublist
        (registry_keys playing) :=
    (List.filter_sublist playing).map Prod.fst
  refine ⟨?_, ?_, ?_, ?_, ?_, ?_, ?_, ?_, ?_⟩
  · rcases start_cases cfg playing note with heq | ⟨hmem, ch, heq⟩
    · rw [heq]; exact hnd
    · rw [heq]
      exact List.nodup_cons.mpr ⟨hmem, hnd⟩
  · rcases stop_cases cfg playing note with heq | heq
    · rw [heq]; exact hnd
    · rw [heq]
      exact hnd.sublist hfilter_sub
  · unfold stop_all_playing
    split_ifs
    · exact List.nodup_nil
    · exact hnd
  · intro hmem
    unfold start_continuous_note
    by_cases h1 : ¬ (cfg.available = true) ∨ note ∉ cfg.sounds
    · rw [if_pos h1]
    · rw [if_neg h1, if_pos hmem]
  · intro hmem
    rcases start_cases cfg playing note with heq | ⟨_, ch, heq⟩
    · exact Or.inl heq
    · exact Or.inr ⟨ch, heq⟩
  · intro hav hmem
    unfold stop_continuous_note at hmem
    rw [if_neg (by simp [hav])] at hmem
    by_cases h2 : note ∈ registry_keys playing
    · rw [if_pos h2] at hmem
      simp only [registry_keys, List.mem_map, List.mem_filter] at hmem
      obtain ⟨q, ⟨_, hq⟩, hfst⟩ := hmem
      rw [hfst] at hq
      simp at hq
    · rw [if_neg h2] at hmem
      exact h2 hmem
  · intro hmem
    unfold stop_continuous_note
    by_cases h1 : ¬ (cfg.available = true)
    · rw [if_pos h1]
    · rw [if_neg h1, if_neg hmem]
  · intro hav
    unfold stop_all_playing
    rw [if_pos hav]
  · intro hav
    constructor
    · unfold start_continuous_note
      rw [if_pos (Or.inl (by simp [hav]))]
    · unfold stop_continuous_note
      rw [if_pos (by simp [hav])]

/-- Witness for C7: starting the unregistered note C on the empty registry
keeps the keys duplicate-free. -/
theorem C7_witness :
    (registry_keys (start_continuous_note cfgW [] "C")).Nodup :=
  (C7_registry_invariant cfgW [] "C" (by simp [registry_keys])).1

/-- toggle_note never touches the gesture's visited set. -/
theorem toggle_note_already_toggled (cfg : AudioCfg) (s : TState)
    (c : ℤ × ℤ) (ps : Bool) :
    (toggle_note cfg s c ps).already_toggled = s.already_toggled := by
  by_cases h : c ∈ s.active_notes <;> simp [toggle_note, h]

/-- toggle_note appends exactly the toggled cell to the observation log. -/
theorem toggle_note_log (cfg : AudioCfg) (s : TState)
    (c : ℤ × ℤ) (ps : Bool) :
    (toggle_note cfg s c ps).toggle_log = s.toggle_log ++ [c] := by
  by_cases h : c ∈ s.active_notes <;> simp [toggle_note, h]

/-- A motion event either leaves the state unchanged, or its hit cell was
unvisited: then the cell is added to the visited set and the toggle log
grows by at most that one cell. -/
theorem on_motion_cases (cfg : AudioCfg) (s : TState)
    (hit : Option (ℤ × ℤ)) :
    on_motion cfg s hit = s ∨
    ∃ c, hit = some c ∧ c ∉ s.already_toggled ∧
      (on_motion cfg s hit).already_toggled = insert c s.already_toggled ∧
      ((on_motion cfg s hit).toggle_log = s.toggle_log ∨
       (on_motion cfg s hit).toggle_log = s.toggle_log ++ [c]) := by
  by_cases hd : s.is_dragging = true
  · cases hit with
    | none => exact Or.inl (by simp [on_motion, hd])
    | some c =>
      by_cases h2 : c ∈ s.already_toggled
      · exact Or.inl (by simp [on_motion, hd, h2])
      · refine Or.inr ⟨c, rfl, h2, ?_, ?_⟩
        · by_cases h3 : ¬ (decide (c ∈ s.active_notes) = s.drag_toggle_state)
          · simp [on_motion, hd, h2, h3, toggle_note_already_toggled]
          · simp [on_motion, hd, h2, h3]
        · by_cases h3 : ¬ (decide (c ∈ s.active_notes) = s.drag_toggle_state)
          · exact Or.inr (by simp [on_motion, hd, h2, h3, toggle_note_log])
          · exact Or.inl (by simp [on_motion, hd, h2, h3])
  · exact Or.inl (by simp [on_motion, hd])

/-- Over any sequence of motion events, the observation log grows by a
duplicate-free extension of cells that were all unvisited at the start, and
the visited set only grows. -/
theorem run_motions_log_spec (cfg : AudioCfg)
    (hits : List (Option (ℤ × ℤ))) :
    ∀ s : TState, ∃ ext : List (ℤ × ℤ),
      (run_motions cfg s hits).toggle_log = s.toggle_log ++ ext ∧
      ext.Nodup ∧
      (∀ d ∈ ext, d ∉ s.already_toggled) ∧
      (∀ d, d ∈ s.already_toggled →
        d ∈ (run_motions cfg s hits).already_toggled) := by
  induction hits with
  | nil =>
    intro s
    exact ⟨[], by simp [run_motions], List.nodup_nil, by simp,
      fun d hd => by simpa [run_motions] using hd⟩
  | cons hit rest ih =>
    intro s
    have hstep : run_motions cfg s (hit :: rest)
        = run_motions cfg (on_motion cfg s hit) rest := rfl
    rcases on_motion_cases cfg s hit with heq | ⟨c, _, hnmem, halready, hlog⟩
    · obtain ⟨ext, h1, h2, h3, h4⟩ := ih s
      rw [hstep, heq]
      exact ⟨ext, h1, h2, h3, h4⟩
    · obtain ⟨ext, h1, h2, h3, h4⟩ := ih (on_motion cfg s hit)
      rcases hlog with hl | hl
      · refine ⟨ext, ?_, h2, ?_, ?_⟩
        · rw [hstep, h1, hl]
        · intro d hd hmem
          exact h3 d hd (by rw [halready]; exact Finset.mem_insert_of_mem hmem)
        · intro d hd
          rw [hstep]
          exact h4 d (by rw [halready]; exact Finset.mem_insert_of_mem hd)
      · refine ⟨c :: ext, ?_, ?_, ?_, ?_⟩
        · rw [hstep, h1, hl, List.append_assoc]
          rfl
        · refine List.nodup_cons.mpr ⟨?_, h2⟩
          intro hc
          exact h3 c hc (by rw [halready]; exact Finset.mem_insert_self c _)
        · intro d hd
          rcases List.mem_cons.mp hd with rfl | hd'
          · exact hnmem
          · intro hmem
            exact h3 d hd'
              (by rw [halready]; exact Finset.mem_insert_of_mem hmem)
        · intro d hd
          rw [hstep]
          exact h4 d (by rw [halready]; exact Finset.mem_insert_of_mem hd)

/-- C5: inside one drag gesture no cell is toggled twice.  A motion hit on
an already-visited cell changes nothing; a motion hit on an unvisited cell
whose state already matches the gesture's toggle direction only marks it
visited; and across a press followed by any sequence of motion events -
including repeated reports of the same cell - each cell appears at most
once in the toggle log. -/
theorem C5_drag_no_double_toggle (cfg : AudioCfg) (s : TState)
    (c c0 : ℤ × ℤ) (hits : List (Option (ℤ × ℤ))) :
    (s.is_dragging = true → c ∈ s.already_toggled →
      on_motion cfg s (some c) = s) ∧
    (s.is_dragging = true → c ∉ s.already_toggled →
      decide (c ∈ s.active_notes) = s.drag_toggle_state →
      on_motion cfg s (some c) =
        { s with already_toggled := insert c s.already_toggled }) ∧
    (∃ ext : List (ℤ × ℤ),
      (run_motions cfg (on_press cfg s (some c0)) hits).toggle_log
        = s.toggle_log ++ ext ∧ ext.Nodup) := by
  refine ⟨?_, ?_, ?_⟩
  · intro hd hc
    simp [on_motion, hd, hc]
  · intro hd hc hmatch
    simp [on_motion, hd, hc, hmatch]
  · have h1log : (on_press cfg s (some c0)).toggle_log
        = s.toggle_log ++ [c0] := by
      simp [on_press, toggle_note_log]
    have h1already : (on_press cfg s (some c0)).already_toggled = {c0} := by
      simp [on_press, toggle_note_already_toggled]
    obtain ⟨ext, hlog, hnd, hfresh, _⟩ :=
      run_motions_log_spec cfg hits (on_press cfg s (some c0))
    refine ⟨c0 :: ext, ?_, ?_⟩
    · rw [hlog, h1log, List.append_assoc]
      rfl
    · refine List.nodup_cons.mpr ⟨?_, hnd⟩
      intro hdext
      exact hfresh c0 hdext
        (by rw [h1already]; exact Finset.mem_singleton_self c0)

/-- Witness for C5: in a dragging state that has already visited (0, 0), a
motion event reporting (0, 0) again is a no-op. -/
theorem C5_witness :
    on_motion cfgW sW (some ((0 : ℤ), (0 : ℤ))) = sW :=
  (C5_drag_no_double_toggle cfgW sW ((0 : ℤ), (0 : ℤ)) ((0 : ℤ), (0 : ℤ))
    []).1 rfl (by decide)

/-- C6: every key whose upper-case form is one of the seven note letters
routes to a chord request: the upper-case key to a major chord on that
letter, the lower-case key to a minor chord on the upper-cased letter, and
the chord index set is root, third (4 semitones for major, 3 for minor) and
fifth, mod 12; in particular C major yields the set 0, 4, 7 and c minor the
set 0, 3, 7. -/
theorem C6_key_chords (key : Char)
    (h : key ∈ ['C', 'D', 'E', 'F', 'G', 'A', 'B',
                'c', 'd', 'e', 'f', 'g', 'a', 'b']) :
    (key.isUpper = true →
      on_key_chord key = some (String.mk [key], "major") ∧
      (chord_indices (String.mk [key]) "major").toFinset =
        {pitch_class_to_index (String.mk [key]),
         (pitch_class_to_index (String.mk [key]) + 4) % 12,
         (pitch_class_to_index (String.mk [key]) + 7) % 12}) ∧
    (key.isUpper = false →
      on_key_chord key = some (String.mk [key.toUpper], "minor") ∧
      (chord_indices (String.mk [key.toUpper]) "minor").toFinset =
        {pitch_class_to_index (String.mk [key.toUpper]),
         (pitch_class_to_index (String.mk [key.toUpper]) + 3) % 12,
         (pitch_class_to_index (String.mk [key.toUpper]) + 7) % 12}) ∧
    (key = 'C' → (chord_indices "C" "major").toFinset = ({0, 4, 7} : Finset ℤ)) ∧
    (key = 'c' → (chord_indices "C" "minor").toFinset = ({0, 3, 7} : Finset ℤ)) := by
  fin_cases h <;> decide

/-- Witness for C6: the upper-case C key requests a C major chord with index
set 0, 4, 7. -/
theorem C6_witness :
    on_key_chord 'C' = some (String.mk ['C'], "major") ∧
    (chord_indices "C" "major").toFinset = ({0, 4, 7} : Finset ℤ) := by
  have h := C6_key_chords 'C' (by decide)
  exact ⟨(h.1 (by decide)).1, h.2.2.1 rfl⟩

end Tonnetz
